import Mathlib

set_option maxHeartbeats 1000000

/-
Verification development for the RosProject training launcher and data
inspection scripts (`run_training.py`, `datacheck.py`).

The configuration is a YAML tree: nested string-keyed mappings with scalar
leaves (strings, ints, floats).  Floats are modelled as rationals; all claims
concern only exact equality of values, never rounding.
-/

namespace RosTraining

/-- A scalar configuration value: string, int, or float (modelled as `Rat`). -/
inductive Scalar where
  | s : String → Scalar
  | i : Int → Scalar
  | f : Rat → Scalar
deriving DecidableEq

/-- A configuration tree, as parsed from the YAML document: a scalar leaf or a
nested mapping.  Mappings are association lists (Python dicts preserve
insertion order; keys are unique, which the operations below maintain). -/
inductive Config where
  | scalar : Scalar → Config
  | map : List (String × Config) → Config

/-- The entry list of a mapping node. -/
abbrev Entries := List (String × Config)

/-- Dictionary lookup: first entry with the given key (`current[k]` /
`k in current`). -/
def lookupKey : Entries → String → Option Config
  | [], _ => none
  | (k', v) :: rest, k => if k' = k then some v else lookupKey rest k

/-- Dictionary update `current[k] = v`: replaces the value at an existing key
in place, otherwise appends the new entry at the end (Python dict semantics). -/
def setKey : Entries → String → Config → Entries
  | [], k, v => [(k, v)]
  | (k', v') :: rest, k, v =>
      if k' = k then (k', v) :: rest else (k', v') :: setKey rest k v

/-- Attribute-style resolution of a nested path through the tree
(`config.a.b.c`): fails if a segment is missing or an intermediate node is a
scalar. -/
def Config.getPath (c : Config) : List String → Option Config
  | [] => some c
  | k :: p =>
      match c with
      | .scalar _ => none
      | .map m =>
          match lookupKey m k with
          | some c' => c'.getPath p
          | none => none

/-- The dotted-key override loop body of `load_config` (run_training.py
lines 26-34): walk the intermediate segments, creating an empty mapping for an
absent segment (`if k not in current: current[k] = {}`), and set the final
segment.  An intermediate segment bound to a scalar makes the Python loop
raise a `TypeError`; that is the `none` outcome. -/
def setPath (m : Entries) : List String → Scalar → Option Entries
  | [], _ => none
  | [k], v => some (setKey m k (.scalar v))
  | k :: k' :: p, v =>
      match lookupKey m k with
      | none =>
          match setPath [] (k' :: p) v with
          | some sub => some (setKey m k (.map sub))
          | none => none
      | some (.map sub) =>
          match setPath sub (k' :: p) v with
          | some sub' => some (setKey m k (.map sub'))
          | none => none
      | some (.scalar _) => none

/-- `key.split('.')` on the character list: Python `str.split` with an explicit
separator, so `"a..b"` yields `["a", "", "b"]`. -/
def splitDots : List Char → List (List Char)
  | [] => [[]]
  | c :: rest =>
      match splitDots rest with
      | [] => if c = '.' then [[], []] else [[c]]
      | g :: gs => if c = '.' then [] :: g :: gs else (c :: g) :: gs

/-- The path a dotted override key addresses (run_training.py lines 26-36):
a key containing a dot is split on dots into nested segments, any other key is
a single top-level segment. -/
def keyPath (key : String) : List String :=
  if key.toList.contains '.' then (splitDots key.toList).map String.mk else [key]

/-- One override assignment of `load_config`: `setPath` along `keyPath key`.
For a dotless key this is exactly the `config[key] = value` branch, since the
path is then the single segment `[key]`. -/
def applyOne (m : Entries) (key : String) (v : Scalar) : Option Entries :=
  setPath m (keyPath key) v

/-- The override loop of `load_config` (lines 24-36): each key with a
non-null value is applied in order; null values are skipped. -/
def applyOverrides (m : Entries) : List (String × Option Scalar) → Option Entries
  | [] => some m
  | (_, none) :: rest => applyOverrides m rest
  | (k, some v) :: rest =>
      match applyOne m k v with
      | some m' => applyOverrides m' rest
      | none => none

/-- Two resolution paths diverge: neither is an initial segment of the other.
A write at one such path can never affect the value resolved at the other. -/
def pathsDisjointB : List String → List String → Bool
  | [], _ => false
  | _ :: _, [] => false
  | k :: p, k' :: q => if k = k' then pathsDisjointB p q else true

theorem pathsDisjointB_symm : ∀ p q, pathsDisjointB p q = pathsDisjointB q p
  | [], [] => rfl
  | [], _ :: _ => rfl
  | _ :: _, [] => rfl
  | k :: p, k' :: q => by
      by_cases h : k = k'
      · simp [pathsDisjointB, h, pathsDisjointB_symm p q]
      · simp [pathsDisjointB, h, Ne.symm h]

theorem lookupKey_setKey_self (m : Entries) (k : String) (v : Config) :
    lookupKey (setKey m k v) k = some v := by
  induction m with
  | nil => simp [setKey, lookupKey]
  | cons e rest ih =>
      obtain ⟨k', v'⟩ := e
      by_cases h : k' = k
      · simp [setKey, lookupKey, h]
      · simp [setKey, lookupKey, h, ih]

theorem lookupKey_setKey_ne (m : Entries) (k k2 : String) (v : Config)
    (h : k2 ≠ k) : lookupKey (setKey m k v) k2 = lookupKey m k2 := by
  induction m with
  | nil => simp [setKey, lookupKey, Ne.symm h]
  | cons e rest ih =>
      obtain ⟨k', v'⟩ := e
      by_cases h' : k' = k
      · subst h'
        simp [setKey, lookupKey, Ne.symm h]
      · by_cases h2 : k' = k2
        · subst h2
          simp [setKey, lookupKey, h, h']
        · simp [setKey, lookupKey, h', h2, ih]

theorem setKey_eq_of_lookup (m : Entries) (k : String) (v : Config)
    (h : lookupKey m k = some v) : setKey m k v = m := by
  induction m with
  | nil => simp [lookupKey] at h
  | cons e rest ih =>
      obtain ⟨k', v'⟩ := e
      by_cases h' : k' = k
      · subst h'
        simp [lookupKey] at h
        simp [setKey, h]
      · simp [lookupKey, h'] at h
        simp [setKey, h', ih h]

theorem getPath_nil (c : Config) : c.getPath [] = some c := rfl

theorem getPath_cons_scalar (s : Scalar) (k : String) (p : List String) :
    (Config.scalar s).getPath (k :: p) = none := rfl

theorem getPath_cons_of_lookup_none {m : Entries} {k : String} (p : List String)
    (h : lookupKey m k = none) : (Config.map m).getPath (k :: p) = none := by
  simp only [Config.getPath]
  rw [h]

theorem getPath_cons_of_lookup {m : Entries} {k : String} {c : Config}
    (p : List String) (h : lookupKey m k = some c) :
    (Config.map m).getPath (k :: p) = c.getPath p := by
  simp only [Config.getPath]
  rw [h]

theorem setPath_nil (m : Entries) (v : Scalar) : setPath m [] v = none := rfl

theorem setPath_single (m : Entries) (k : String) (v : Scalar) :
    setPath m [k] v = some (setKey m k (.scalar v)) := rfl

theorem setPath_cons_of_none {m : Entries} {k : String} (k2 : String)
    (p : List String) (v : Scalar) (h : lookupKey m k = none) :
    setPath m (k :: k2 :: p) v =
      (setPath [] (k2 :: p) v).map (fun sub => setKey m k (.map sub)) := by
  cases hs : setPath [] (k2 :: p) v <;> simp [setPath, h, hs]

theorem setPath_cons_of_map {m : Entries} {k : String} {sub : Entries}
    (k2 : String) (p : List String) (v : Scalar)
    (h : lookupKey m k = some (.map sub)) :
    setPath m (k :: k2 :: p) v =
      (setPath sub (k2 :: p) v).map (fun sub' => setKey m k (.map sub')) := by
  cases hs : setPath sub (k2 :: p) v <;> simp [setPath, h, hs]

theorem setPath_cons_of_scalar {m : Entries} {k : String} {s : Scalar}
    (k2 : String) (p : List String) (v : Scalar)
    (h : lookupKey m k = some (.scalar s)) :
    setPath m (k :: k2 :: p) v = none := by
  simp only [setPath]
  rw [h]

/-- After a successful dotted-path write, resolving the same path yields the
written scalar. -/
theorem getPath_setPath : ∀ (p : List String) (m m' : Entries) (v : Scalar),
    setPath m p v = some m' → Config.getPath (.map m') p = some (.scalar v)
  | [], m, m', v, h => by simp [setPath_nil] at h
  | [k], m, m', v, h => by
      rw [setPath_single, Option.some.injEq] at h
      subst h
      rw [getPath_cons_of_lookup [] (lookupKey_setKey_self m k (.scalar v))]
      rfl
  | k :: k2 :: p, m, m', v, h => by
      cases hm : lookupKey m k with
      | none =>
          rw [setPath_cons_of_none k2 p v hm] at h
          cases hsub : setPath [] (k2 :: p) v with
          | none => rw [hsub] at h; simp at h
          | some sub =>
              rw [hsub] at h
              simp only [Option.map_some', Option.some.injEq] at h
              subst h
              rw [getPath_cons_of_lookup (k2 :: p) (lookupKey_setKey_self m k (.map sub))]
              exact getPath_setPath (k2 :: p) [] sub v hsub
      | some c =>
          cases c with
          | scalar s => rw [setPath_cons_of_scalar k2 p v hm] at h; simp at h
          | map sub =>
              rw [setPath_cons_of_map k2 p v hm] at h
              cases hsub : setPath sub (k2 :: p) v with
              | none => rw [hsub] at h; simp at h
              | some sub' =>
                  rw [hsub] at h
                  simp only [Option.map_some', Option.some.injEq] at h
                  subst h
                  rw [getPath_cons_of_lookup (k2 :: p)
                    (lookupKey_setKey_self m k (.map sub'))]
                  exact getPath_setPath (k2 :: p) sub sub' v hsub

/-- Frame property: a successful dotted-path write leaves the value resolved
at any divergent path unchanged. -/
theorem getPath_setPath_frame :
    ∀ (p : List String) (m m' : Entries) (v : Scalar) (q : List String),
    setPath m p v = some m' → pathsDisjointB p q = true →
    Config.getPath (.map m') q = Config.getPath (.map m) q
  | [], m, m', v, q, h, _ => by simp [setPath_nil] at h
  | [k], m, m', v, [], h, hd => by simp [pathsDisjointB] at hd
  | [k], m, m', v, k3 :: q3, h, hd => by
      rw [setPath_single, Option.some.injEq] at h
      subst h
      by_cases hk : k = k3
      · subst hk
        simp [pathsDisjointB] at hd
      · have hne : k3 ≠ k := Ne.symm hk
        cases hq : lookupKey m k3 with
        | none =>
            rw [getPath_cons_of_lookup_none q3 hq,
              getPath_cons_of_lookup_none q3 (by rw [lookupKey_setKey_ne m k k3 _ hne]; exact hq)]
        | some c =>
            rw [getPath_cons_of_lookup q3 hq,
              getPath_cons_of_lookup q3 (by rw [lookupKey_setKey_ne m k k3 _ hne]; exact hq)]
  | k :: k2 :: p, m, m', v, [], h, hd => by simp [pathsDisjointB] at hd
  | k :: k2 :: p, m, m', v, k3 :: q3, h, hd => by
      by_cases hk : k = k3
      · subst hk
        have hd' : pathsDisjointB (k2 :: p) q3 = true := by
          simpa [pathsDisjointB] using hd
        cases hm : lookupKey m k with
        | none =>
            rw [setPath_cons_of_none k2 p v hm] at h
            cases hsub : setPath [] (k2 :: p) v with
            | none => rw [hsub] at h; simp at h
            | some sub =>
                rw [hsub] at h
                simp only [Option.map_some', Option.some.injEq] at h
                subst h
                rw [getPath_cons_of_lookup q3 (lookupKey_setKey_self m k (.map sub)),
                  getPath_cons_of_lookup_none q3 hm]
                have hemp := getPath_setPath_frame (k2 :: p) [] sub v q3 hsub hd'
                rw [hemp]
                cases q3 with
                | nil => simp [pathsDisjointB] at hd'
                | cons j q4 => rw [getPath_cons_of_lookup_none q4 (by rfl)]
        | some c =>
            cases c with
            | scalar s => rw [setPath_cons_of_scalar k2 p v hm] at h; simp at h
            | map sub =>
                rw [setPath_cons_of_map k2 p v hm] at h
                cases hsub : setPath sub (k2 :: p) v with
                | none => rw [hsub] at h; simp at h
                | some sub' =>
                    rw [hsub] at h
                    simp only [Option.map_some', Option.some.injEq] at h
                    subst h
                    rw [getPath_cons_of_lookup q3 (lookupKey_setKey_self m k (.map sub')),
                      getPath_cons_of_lookup q3 hm]
                    exact getPath_setPath_frame (k2 :: p) sub sub' v q3 hsub hd'
      · have hne : k3 ≠ k := Ne.symm hk
        have hset : ∃ x, m' = setKey m k x := by
          cases hm : lookupKey m k with
          | none =>
              rw [setPath_cons_of_none k2 p v hm] at h
              cases hsub : setPath [] (k2 :: p) v with
              | none => rw [hsub] at h; simp at h
              | some sub =>
                  rw [hsub] at h
                  simp only [Option.map_some', Option.some.injEq] at h
                  exact ⟨.map sub, h.symm⟩
          | some c =>
              cases c with
              | scalar s => rw [setPath_cons_of_scalar k2 p v hm] at h; simp at h
              | map sub =>
                  rw [setPath_cons_of_map k2 p v hm] at h
                  cases hsub : setPath sub (k2 :: p) v with
                  | none => rw [hsub] at h; simp at h
                  | some sub' =>
                      rw [hsub] at h
                      simp only [Option.map_some', Option.some.injEq] at h
                      exact ⟨.map sub', h.symm⟩
        obtain ⟨x, hx⟩ := hset
        subst hx
        cases hq : lookupKey m k3 with
        | none =>
            rw [getPath_cons_of_lookup_none q3 hq,
              getPath_cons_of_lookup_none q3 (by rw [lookupKey_setKey_ne m k k3 _ hne]; exact hq)]
        | some c =>
            rw [getPath_cons_of_lookup q3 hq,
              getPath_cons_of_lookup q3 (by rw [lookupKey_setKey_ne m k k3 _ hne]; exact hq)]

/-- Writing a scalar that the path already resolves to is a no-op. -/
theorem setPath_of_getPath : ∀ (p : List String) (m : Entries) (v : Scalar),
    Config.getPath (.map m) p = some (.scalar v) → setPath m p v = some m
  | [], m, v, h => by simp [getPath_nil] at h
  | [k], m, v, h => by
      cases hm : lookupKey m k with
      | none => rw [getPath_cons_of_lookup_none [] hm] at h; simp at h
      | some c =>
          rw [getPath_cons_of_lookup [] hm, getPath_nil, Option.some.injEq] at h
          subst h
          rw [setPath_single, setKey_eq_of_lookup m k _ hm]
  | k :: k2 :: p, m, v, h => by
      cases hm : lookupKey m k with
      | none => rw [getPath_cons_of_lookup_none (k2 :: p) hm] at h; simp at h
      | some c =>
          rw [getPath_cons_of_lookup (k2 :: p) hm] at h
          cases c with
          | scalar s => rw [getPath_cons_scalar] at h; simp at h
          | map sub =>
              have hrec := setPath_of_getPath (k2 :: p) sub v h
              rw [setPath_cons_of_map k2 p v hm, hrec, Option.map_some',
                setKey_eq_of_lookup m k _ hm]

/-- A successful dotted-path write is idempotent. -/
theorem setPath_idem {p : List String} {m m' : Entries} {v : Scalar}
    (h : setPath m p v = some m') : setPath m' p v = some m' :=
  setPath_of_getPath p m' v (getPath_setPath p m m' v h)

theorem applyOverrides_nil (m : Entries) : applyOverrides m [] = some m := rfl

theorem applyOverrides_cons_null (m : Entries) (k : String)
    (rest : List (String × Option Scalar)) :
    applyOverrides m ((k, none) :: rest) = applyOverrides m rest := rfl

theorem applyOverrides_cons_of_some {m m1 : Entries} {k : String} {v : Scalar}
    (rest : List (String × Option Scalar)) (h : applyOne m k v = some m1) :
    applyOverrides m ((k, some v) :: rest) = applyOverrides m1 rest := by
  simp [applyOverrides, h]

theorem applyOverrides_cons_of_fail {m : Entries} {k : String} {v : Scalar}
    (rest : List (String × Option Scalar)) (h : applyOne m k v = none) :
    applyOverrides m ((k, some v) :: rest) = none := by
  simp [applyOverrides, h]

/-- Two override entries address divergent dotted paths. -/
def OvDisjoint (kv kv' : String × Option Scalar) : Prop :=
  pathsDisjointB (keyPath kv.1) (keyPath kv'.1) = true

instance : DecidableRel OvDisjoint := fun kv kv' => by
  unfold OvDisjoint; infer_instance

/-- Frame property for a whole override list: paths divergent from every
applied key resolve as in the base configuration. -/
theorem applyOverrides_frame :
    ∀ (O : List (String × Option Scalar)) (m m' : Entries) (q : List String),
    applyOverrides m O = some m' →
    (∀ k v, (k, some v) ∈ O → pathsDisjointB (keyPath k) q = true) →
    Config.getPath (.map m') q = Config.getPath (.map m) q
  | [], m, m', q, h, _ => by
      rw [applyOverrides_nil, Option.some.injEq] at h
      subst h
      rfl
  | (k0, none) :: rest, m, m', q, h, hd => by
      rw [applyOverrides_cons_null] at h
      exact applyOverrides_frame rest m m' q h
        (fun k v hk => hd k v (List.mem_cons_of_mem _ hk))
  | (k0, some v0) :: rest, m, m', q, h, hd => by
      cases h1 : applyOne m k0 v0 with
      | none => rw [applyOverrides_cons_of_fail rest h1] at h; simp at h
      | some m1 =>
          rw [applyOverrides_cons_of_some rest h1] at h
          have hrest := applyOverrides_frame rest m1 m' q h
            (fun k v hk => hd k v (List.mem_cons_of_mem _ hk))
          rw [hrest]
          exact getPath_setPath_frame (keyPath k0) m m1 v0 q h1
            (hd k0 v0 (List.mem_cons_self _ _))

/-- After a successful application of an override list whose keys address
pairwise divergent paths, every applied key resolves to its override value. -/
theorem applyOverrides_mem :
    ∀ (O : List (String × Option Scalar)) (m m' : Entries),
    applyOverrides m O = some m' → List.Pairwise OvDisjoint O →
    ∀ k v, (k, some v) ∈ O →
    Config.getPath (.map m') (keyPath k) = some (.scalar v)
  | [], m, m', h, _, k, v, hk => by simp at hk
  | (k0, w0) :: rest, m, m', h, hp, k, v, hk => by
      rcases List.mem_cons.mp hk with heq | hmem
      · have hk0 : k0 = k := by
          have := congrArg Prod.fst heq.symm
          simpa using this
        have hw0 : w0 = some v := by
          have := congrArg Prod.snd heq.symm
          simpa using this
        subst hk0
        subst hw0
        cases h1 : applyOne m k0 v with
        | none => exact absurd h (by rw [applyOverrides_cons_of_fail rest h1]; simp)
        | some m1 =>
            rw [applyOverrides_cons_of_some rest h1] at h
            have hbase := getPath_setPath (keyPath k0) m m1 v h1
            have hframe := applyOverrides_frame rest m1 m' (keyPath k0) h
              (fun k2 v2 hk2 => by
                have := (List.pairwise_cons.mp hp).1 (k2, some v2) hk2
                unfold OvDisjoint at this
                rw [pathsDisjointB_symm]
                exact this)
            rw [hframe]
            exact hbase
      · cases w0 with
        | none =>
            rw [applyOverrides_cons_null] at h
            exact applyOverrides_mem rest m m' h (List.Pairwise.of_cons hp) k v hmem
        | some v0 =>
            cases h1 : applyOne m k0 v0 with
            | none => exact absurd h (by rw [applyOverrides_cons_of_fail rest h1]; simp)
            | some m1 =>
                rw [applyOverrides_cons_of_some rest h1] at h
                exact applyOverrides_mem rest m1 m' h (List.Pairwise.of_cons hp) k v hmem

/-- A successful application of an override list with pairwise divergent key
paths is idempotent. -/
theorem applyOverrides_idem :
    ∀ (O : List (String × Option Scalar)) (m m' : Entries),
    applyOverrides m O = some m' → List.Pairwise OvDisjoint O →
    applyOverrides m' O = some m'
  | [], m, m', h, _ => by
      rw [applyOverrides_nil, Option.some.injEq] at h
      subst h
      rfl
  | (k0, none) :: rest, m, m', h, hp => by
      rw [applyOverrides_cons_null] at h
      rw [applyOverrides_cons_null]
      exact applyOverrides_idem rest m m' h (List.Pairwise.of_cons hp)
  | (k0, some v0) :: rest, m, m', h, hp => by
      cases h1 : applyOne m k0 v0 with
      | none => exact absurd h (by rw [applyOverrides_cons_of_fail rest h1]; simp)
      | some m1 =>
          rw [applyOverrides_cons_of_some rest h1] at h
          have hval : Config.getPath (.map m') (keyPath k0) = some (.scalar v0) := by
            have hframe := applyOverrides_frame rest m1 m' (keyPath k0) h
              (fun k2 v2 hk2 => by
                have := (List.pairwise_cons.mp hp).1 (k2, some v2) hk2
                unfold OvDisjoint at this
                rw [pathsDisjointB_symm]
                exact this)
            rw [hframe]
            exact getPath_setPath (keyPath k0) m m1 v0 h1
          have h2 : applyOne m' k0 v0 = some m' :=
            setPath_of_getPath (keyPath k0) m' v0 hval
          rw [applyOverrides_cons_of_some rest h2]
          exact applyOverrides_idem rest m1 m' h (List.Pairwise.of_cons hp)

/-- The recognized command-line options of `main` (run_training.py lines
75-111).  Optional values default to `None`; the two flags default to false. -/
structure Args where
  data_root : Option String
  train_data_name : Option String
  val_data_name : Option String
  train_data_path : Option String
  val_data_path : Option String
  log_dir : Option String
  epochs : Option Int
  batch_size : Option Int
  learning_rate : Option Rat
  check_data_only : Bool
  force : Bool

/-- Python truthiness of an optional string: `None` and `""` are falsy. -/
def truthyS : Option String → Bool
  | some x => x ≠ ""
  | none => false

/-- The override entry contributed by a string-valued option: `main` guards
each with `if args.x:` (Python truthiness), so `None` and the empty string
contribute nothing. -/
def strOver (v : Option String) (key : String) : List (String × Option Scalar) :=
  match v with
  | some x => if x = "" then [] else [(key, some (.s x))]
  | none => []

/-- The override entry contributed by an int-valued option; `0` is falsy. -/
def intOver (v : Option Int) (key : String) : List (String × Option Scalar) :=
  match v with
  | some x => if x = 0 then [] else [(key, some (.i x))]
  | none => []

/-- The override entry contributed by a float-valued option; `0.0` is falsy. -/
def ratOver (v : Option Rat) (key : String) : List (String × Option Scalar) :=
  match v with
  | some x => if x = 0 then [] else [(key, some (.f x))]
  | none => []

/-- The override map built by `main` (run_training.py lines 114-129), in
insertion order. -/
def buildOverrides (a : Args) : List (String × Option Scalar) :=
  strOver a.data_root "system.data_root" ++
  strOver a.train_data_name "train.dataset_zip_file_name_training" ++
  strOver a.val_data_name "val.dataset_zip_file_name_validation" ++
  strOver a.log_dir "system.log_dir_system" ++
  intOver a.epochs "train.epochs" ++
  intOver a.batch_size "train.batch_training_size" ++
  ratOver a.learning_rate "adam_optimizer.lr"

/-- `os.path.basename` (POSIX): the characters after the last slash. -/
def basename (p : String) : String :=
  String.mk ((p.toList.reverse.takeWhile (fun c => c ≠ '/')).reverse)

/-- `os.path.dirname` (POSIX): everything up to the last slash, with trailing
slashes stripped unless the head consists only of slashes. -/
def dirname (p : String) : String :=
  let head := (p.toList.reverse.dropWhile (fun c => c ≠ '/')).reverse
  if head.isEmpty then ""
  else if head.all (fun c => c = '/') then String.mk head
  else String.mk ((head.reverse.dropWhile (fun c => c = '/')).reverse)

/-- `os.path.join` (POSIX) for two components. -/
def osJoin (a b : String) : String :=
  if b.toList.head? = some '/' then b
  else if a = "" then b
  else if a.toList.getLast? = some '/' then a ++ b
  else a ++ "/" ++ b

/-- The attribute assignment `config.k1.k2 = v` on the loaded configuration:
requires `k1` to be present and bound to a mapping (otherwise Python raises
`AttributeError`), then updates `k2` inside it. -/
def setAttr2 (m : Entries) (k1 k2 : String) (v : Config) : Option Entries :=
  match lookupKey m k1 with
  | some (.map sub) => some (setKey m k1 (.map (setKey sub k2 v)))
  | _ => none

/-- The direct data-path handling of `main` (run_training.py lines 134-147):
a truthy `--train-data-path` sets `system.data_root` to its parent directory
and the training folder name to its leaf; a truthy `--val-data-path` sets the
validation folder name to its leaf, and sets `system.data_root` to its parent
directory only when `--train-data-path` is not truthy. -/
def applyDirectPaths (m : Entries) (tp vp : Option String) : Option Entries :=
  let step1 : Option Entries :=
    match tp with
    | some p =>
        if p = "" then some m
        else (setAttr2 m "system" "data_root" (.scalar (.s (dirname p)))).bind
          (fun m1 =>
            setAttr2 m1 "train" "dataset_zip_file_name_training"
              (.scalar (.s (basename p))))
    | none => some m
  step1.bind (fun m1 =>
    match vp with
    | some q =>
        if q = "" then some m1
        else (if truthyS tp then some m1
              else setAttr2 m1 "system" "data_root" (.scalar (.s (dirname q)))).bind
          (fun m2 =>
            setAttr2 m2 "val" "dataset_zip_file_name_validation"
              (.scalar (.s (basename q))))
    | none => some m1)

/-- The three path fields consumed by `validate_data_paths`. -/
structure PathConfig where
  data_root : String
  train_name : String
  val_name : String

/-- What one run of `validate_data_paths` did: which paths were passed to
`os.path.exists` (in order), which missing paths were reported by a warning,
and the returned boolean. -/
structure CheckTrace where
  checked : List String
  missingReported : List String
  result : Bool

/-- `validate_data_paths` (run_training.py lines 43-70), with filesystem
existence abstracted as the predicate `ex`.  Each `if not os.path.exists(...)`
branch prints a warning and returns `False` immediately. -/
def validate_data_paths (ex : String → Bool) (c : PathConfig) : CheckTrace :=
  let dr := c.data_root
  let tr := osJoin dr c.train_name
  let vl := osJoin dr c.val_name
  if ex dr = false then ⟨[dr], [dr], false⟩
  else if ex tr = false then ⟨[dr, tr], [tr], false⟩
  else if ex vl = false then ⟨[dr, tr, vl], [vl], false⟩
  else ⟨[dr, tr, vl], [], true⟩

/-- All three data paths exist. -/
def allExist (ex : String → Bool) (c : PathConfig) : Bool :=
  ex c.data_root && ex (osJoin c.data_root c.train_name) &&
    ex (osJoin c.data_root c.val_name)

theorem validate_result (ex : String → Bool) (c : PathConfig) :
    (validate_data_paths ex c).result = allExist ex c := by
  unfold validate_data_paths allExist
  cases h1 : ex c.data_root <;>
    cases h2 : ex (osJoin c.data_root c.train_name) <;>
      cases h3 : ex (osJoin c.data_root c.val_name) <;> simp [h1, h2, h3]

/-- How a run of `main` ends, relative to the external Estimator collaborator:
`crashed` is an uncaught exception during configuration resolution or the
summary printout; `exited c` is `sys.exit(c)` before any training;
`trained c` means the Estimator is constructed with configuration `c` and its
`train()` entry point invoked. -/
inductive Outcome where
  | crashed
  | exited (code : Nat)
  | trained (c : Entries)

/-- Resolve a nested path to a string scalar. -/
def getStr (m : Entries) (p : List String) : Option String :=
  match Config.getPath (.map m) p with
  | some (.scalar (.s x)) => some x
  | _ => none

/-- The three path fields read by the summary printout and
`validate_data_paths`; they must be present strings (a missing segment raises
`AttributeError`, a non-string `data_root` makes `os.path.join` raise). -/
def extractPathConfig (m : Entries) : Option PathConfig :=
  match getStr m ["system", "data_root"],
      getStr m ["train", "dataset_zip_file_name_training"],
      getStr m ["val", "dataset_zip_file_name_validation"] with
  | some dr, some tn, some vn => some ⟨dr, tn, vn⟩
  | _, _, _ => none

/-- The remaining configuration values read by the summary printout
(run_training.py lines 157-160); a missing one raises `AttributeError`. -/
def summaryPresent (m : Entries) : Bool :=
  (Config.getPath (.map m) ["system", "log_dir_system"]).isSome &&
  (Config.getPath (.map m) ["train", "epochs"]).isSome &&
  (Config.getPath (.map m) ["train", "batch_training_size"]).isSome &&
  (Config.getPath (.map m) ["adam_optimizer", "lr"]).isSome

/-- Configuration resolution of `main`: the override map is merged by
`load_config`, then the direct data-path options are applied. -/
def resolveConfig (a : Args) (base : Entries) : Option Entries :=
  (applyOverrides base (buildOverrides a)).bind
    (fun c1 => applyDirectPaths c1 a.train_data_path a.val_data_path)

/-- `main` (run_training.py lines 111-190) from parsed arguments to its
outcome, over a base configuration `base` (the parsed YAML document) and a
filesystem existence predicate `ex`. -/
def runMain (a : Args) (ex : String → Bool) (base : Entries) : Outcome :=
  match resolveConfig a base with
  | none => .crashed
  | some c =>
      if summaryPresent c = false then .crashed
      else
        match extractPathConfig c with
        | none => .crashed
        | some pc =>
            let t := validate_data_paths ex pc
            if a.check_data_only then .exited (if t.result then 0 else 1)
            else if t.result = false && a.force = false then .exited 1
            else .trained c

/-- A collected orientation annotation: a 4-component quaternion
(`q_x, q_y, q_z, q_w`).  Float components are modelled as rationals; the
analysis uses exact equality only. -/
abbrev Quat := Rat × Rat × Rat × Rat

/-- The variation classification printed by `inspect_dataset_annotations`. -/
inductive Variation where
  | identical
  | veryLow
  | good
deriving DecidableEq

/-- The analysis outcome: the classification and the unique values listed by
the report (`identical` prints the single value, `veryLow` lists all unique
values, `good` lists nothing). -/
structure AnalysisReport where
  classification : Variation
  listed : List Quat

/-- The variation analysis of `inspect_dataset_annotations` (datacheck.py
lines 73-98): an empty collection is reported as an error (`none`); otherwise
the distinct orientation vectors (`np.unique`, exact equality — modelled as
`dedup`, which has the same elements and length) drive the classification. -/
def analyzeOrientations (l : List Quat) : Option AnalysisReport :=
  if l = [] then none
  else
    let u := l.dedup
    if u.length = 1 then some ⟨.identical, u⟩
    else if u.length < 10 then some ⟨.veryLow, u⟩
    else some ⟨.good, []⟩

theorem setAttr2_get_self {m m' : Entries} {k1 k2 : String} {v : Config}
    (h : setAttr2 m k1 k2 v = some m') :
    Config.getPath (.map m') [k1, k2] = some v := by
  unfold setAttr2 at h
  cases hl : lookupKey m k1 with
  | none => rw [hl] at h; simp at h
  | some c =>
      cases c with
      | scalar s => rw [hl] at h; simp at h
      | map sub =>
          rw [hl] at h
          simp only [Option.some.injEq] at h
          subst h
          rw [getPath_cons_of_lookup [k2] (lookupKey_setKey_self m k1 _),
            getPath_cons_of_lookup [] (lookupKey_setKey_self sub k2 v)]
          rfl

theorem setAttr2_frame_top {m m' : Entries} {k1 k2 : String} {v : Config}
    (h : setAttr2 m k1 k2 v = some m') (k : String) (rest : List String)
    (hk : k ≠ k1) :
    Config.getPath (.map m') (k :: rest) = Config.getPath (.map m) (k :: rest) := by
  unfold setAttr2 at h
  cases hl : lookupKey m k1 with
  | none => rw [hl] at h; simp at h
  | some c =>
      cases c with
      | scalar s => rw [hl] at h; simp at h
      | map sub =>
          rw [hl] at h
          simp only [Option.some.injEq] at h
          subst h
          cases hq : lookupKey m k with
          | none =>
              rw [getPath_cons_of_lookup_none rest hq,
                getPath_cons_of_lookup_none rest
                  (by rw [lookupKey_setKey_ne m k1 k _ hk]; exact hq)]
          | some c' =>
              rw [getPath_cons_of_lookup rest hq,
                getPath_cons_of_lookup rest
                  (by rw [lookupKey_setKey_ne m k1 k _ hk]; exact hq)]

theorem setAttr2_frame_inner {m m' : Entries} {k1 k2 : String} {v : Config}
    (h : setAttr2 m k1 k2 v = some m') (k2' : String) (hk : k2' ≠ k2) :
    Config.getPath (.map m') [k1, k2'] = Config.getPath (.map m) [k1, k2'] := by
  unfold setAttr2 at h
  cases hl : lookupKey m k1 with
  | none => rw [hl] at h; simp at h
  | some c =>
      cases c with
      | scalar s => rw [hl] at h; simp at h
      | map sub =>
          rw [hl] at h
          simp only [Option.some.injEq] at h
          subst h
          rw [getPath_cons_of_lookup [k2'] (lookupKey_setKey_self m k1 _),
            getPath_cons_of_lookup [k2'] hl]
          cases hq : lookupKey sub k2' with
          | none =>
              rw [getPath_cons_of_lookup_none []
                  (by rw [lookupKey_setKey_ne sub k2 k2' _ hk]; exact hq),
                getPath_cons_of_lookup_none [] hq]
          | some c' =>
              rw [getPath_cons_of_lookup []
                  (by rw [lookupKey_setKey_ne sub k2 k2' _ hk]; exact hq),
                getPath_cons_of_lookup [] hq]

theorem getStr_eq {m : Entries} {p : List String} {x : String}
    (h : Config.getPath (.map m) p = some (.scalar (.s x))) :
    getStr m p = some x := by
  simp [getStr, h]

theorem getStr_congr {m m' : Entries} {p : List String}
    (h : Config.getPath (.map m) p = Config.getPath (.map m') p) :
    getStr m p = getStr m' p := by
  simp [getStr, h]

/-- Python truthiness of an optional int: `None` and `0` are falsy. -/
def truthyI : Option Int → Bool
  | some x => x ≠ 0
  | none => false

/-- Python truthiness of an optional float: `None` and `0.0` are falsy. -/
def truthyQ : Option Rat → Bool
  | some x => x ≠ 0
  | none => false

theorem strOver_eq_nil {v : Option String} {key : String}
    (h : truthyS v = false) : strOver v key = [] := by
  cases v with
  | none => rfl
  | some x =>
      simp [truthyS] at h
      simp [strOver, h]

theorem intOver_eq_nil {v : Option Int} {key : String}
    (h : truthyI v = false) : intOver v key = [] := by
  cases v with
  | none => rfl
  | some x =>
      simp [truthyI] at h
      simp [intOver, h]

theorem ratOver_eq_nil {v : Option Rat} {key : String}
    (h : truthyQ v = false) : ratOver v key = [] := by
  cases v with
  | none => rfl
  | some x =>
      simp [truthyQ] at h
      simp [ratOver, h]

theorem mem_strOver {kv : String × Option Scalar} {v : Option String}
    {key : String} (h : kv ∈ strOver v key) : kv.1 = key := by
  cases v with
  | none => simp [strOver] at h
  | some x =>
      by_cases hx : x = "" <;> simp [strOver, hx] at h
      rw [h]

theorem mem_intOver {kv : String × Option Scalar} {v : Option Int}
    {key : String} (h : kv ∈ intOver v key) : kv.1 = key := by
  cases v with
  | none => simp [intOver] at h
  | some x =>
      by_cases hx : x = 0 <;> simp [intOver, hx] at h
      rw [h]

theorem mem_ratOver {kv : String × Option Scalar} {v : Option Rat}
    {key : String} (h : kv ∈ ratOver v key) : kv.1 = key := by
  cases v with
  | none => simp [ratOver] at h
  | some x =>
      by_cases hx : x = 0 <;> simp [ratOver, hx] at h
      rw [h]

/-- The full keyed option list: each recognized option with its dotted
configuration key; `buildOverrides` is always a sublist of it. -/
def fullKeyed (a : Args) : List (String × Option Scalar) :=
  [("system.data_root", a.data_root.map .s),
   ("train.dataset_zip_file_name_training", a.train_data_name.map .s),
   ("val.dataset_zip_file_name_validation", a.val_data_name.map .s),
   ("system.log_dir_system", a.log_dir.map .s),
   ("train.epochs", a.epochs.map .i),
   ("train.batch_training_size", a.batch_size.map .i),
   ("adam_optimizer.lr", a.learning_rate.map .f)]

theorem strOver_sublist (v : Option String) (key : String) :
    List.Sublist (strOver v key) [(key, v.map .s)] := by
  cases v with
  | none => exact List.nil_sublist _
  | some x => by_cases hx : x = "" <;> simp [strOver, hx]

theorem intOver_sublist (v : Option Int) (key : String) :
    List.Sublist (intOver v key) [(key, v.map .i)] := by
  cases v with
  | none => exact List.nil_sublist _
  | some x => by_cases hx : x = 0 <;> simp [intOver, hx]

theorem ratOver_sublist (v : Option Rat) (key : String) :
    List.Sublist (ratOver v key) [(key, v.map .f)] := by
  cases v with
  | none => exact List.nil_sublist _
  | some x => by_cases hx : x = 0 <;> simp [ratOver, hx]

theorem buildOverrides_sublist (a : Args) :
    List.Sublist (buildOverrides a) (fullKeyed a) := by
  unfold buildOverrides fullKeyed
  exact ((((((strOver_sublist a.data_root "system.data_root").append
    (strOver_sublist a.train_data_name "train.dataset_zip_file_name_training")).append
    (strOver_sublist a.val_data_name "val.dataset_zip_file_name_validation")).append
    (strOver_sublist a.log_dir "system.log_dir_system")).append
    (intOver_sublist a.epochs "train.epochs")).append
    (intOver_sublist a.batch_size "train.batch_training_size")).append
    (ratOver_sublist a.learning_rate "adam_optimizer.lr")

theorem fullKeyed_pairwise (a : Args) : List.Pairwise OvDisjoint (fullKeyed a) := by
  unfold fullKeyed
  refine .cons (fun b hb => ?_) (.cons (fun b hb => ?_) (.cons (fun b hb => ?_)
    (.cons (fun b hb => ?_) (.cons (fun b hb => ?_) (.cons (fun b hb => ?_)
      (.cons (fun b hb => ?_) .nil))))))
  all_goals fin_cases hb <;> exact rfl

theorem buildOverrides_pairwise (a : Args) :
    List.Pairwise OvDisjoint (buildOverrides a) :=
  (fullKeyed_pairwise a).sublist (buildOverrides_sublist a)

/-- Every applied override key of `buildOverrides` addresses a path divergent
from `q`, provided each option's key is either divergent from `q` or the
option contributes nothing. -/
theorem buildOverrides_frame_cond (a : Args) (q : List String)
    (h1 : pathsDisjointB (keyPath "system.data_root") q = true ∨
      strOver a.data_root "system.data_root" = [])
    (h2 : pathsDisjointB (keyPath "train.dataset_zip_file_name_training") q = true ∨
      strOver a.train_data_name "train.dataset_zip_file_name_training" = [])
    (h3 : pathsDisjointB (keyPath "val.dataset_zip_file_name_validation") q = true ∨
      strOver a.val_data_name "val.dataset_zip_file_name_validation" = [])
    (h4 : pathsDisjointB (keyPath "system.log_dir_system") q = true ∨
      strOver a.log_dir "system.log_dir_system" = [])
    (h5 : pathsDisjointB (keyPath "train.epochs") q = true ∨
      intOver a.epochs "train.epochs" = [])
    (h6 : pathsDisjointB (keyPath "train.batch_training_size") q = true ∨
      intOver a.batch_size "train.batch_training_size" = [])
    (h7 : pathsDisjointB (keyPath "adam_optimizer.lr") q = true ∨
      ratOver a.learning_rate "adam_optimizer.lr" = []) :
    ∀ k v, (k, some v) ∈ buildOverrides a → pathsDisjointB (keyPath k) q = true := by
  intro k v hkv
  unfold buildOverrides at hkv
  simp only [List.mem_append] at hkv
  rcases hkv with ((((((h | h) | h) | h) | h) | h) | h)
  · rcases h1 with hd | hemp
    · rw [show k = "system.data_root" from mem_strOver h]; exact hd
    · rw [hemp] at h; simp at h
  · rcases h2 with hd | hemp
    · rw [show k = "train.dataset_zip_file_name_training" from mem_strOver h]; exact hd
    · rw [hemp] at h; simp at h
  · rcases h3 with hd | hemp
    · rw [show k = "val.dataset_zip_file_name_validation" from mem_strOver h]; exact hd
    · rw [hemp] at h; simp at h
  · rcases h4 with hd | hemp
    · rw [show k = "system.log_dir_system" from mem_strOver h]; exact hd
    · rw [hemp] at h; simp at h
  · rcases h5 with hd | hemp
    · rw [show k = "train.epochs" from mem_intOver h]; exact hd
    · rw [hemp] at h; simp at h
  · rcases h6 with hd | hemp
    · rw [show k = "train.batch_training_size" from mem_intOver h]; exact hd
    · rw [hemp] at h; simp at h
  · rcases h7 with hd | hemp
    · rw [show k = "adam_optimizer.lr" from mem_ratOver h]; exact hd
    · rw [hemp] at h; simp at h

/-- A concrete base configuration with the section/key layout of
`config.yaml` (spec §3), used by concrete witnesses. -/
def baseCfg : Entries :=
  [("system", .map [("data_root", .scalar (.s "/data")),
      ("log_dir_system", .scalar (.s "logs"))]),
   ("train", .map [("dataset_zip_file_name_training", .scalar (.s "TRAIN")),
      ("epochs", .scalar (.i 300)),
      ("batch_training_size", .scalar (.i 32))]),
   ("val", .map [("dataset_zip_file_name_validation", .scalar (.s "VAL"))]),
   ("adam_optimizer", .map [("lr", .scalar (.f (1 / 10)))])]

/-- An invocation with no options given. -/
def noArgs : Args :=
  ⟨none, none, none, none, none, none, none, none, none, false, false⟩

/-- `baseCfg` after the overrides `system.data_root := "/x"` and
`train.epochs := 5`. -/
def overriddenCfg : Entries :=
  [("system", .map [("data_root", .scalar (.s "/x")),
      ("log_dir_system", .scalar (.s "logs"))]),
   ("train", .map [("dataset_zip_file_name_training", .scalar (.s "TRAIN")),
      ("epochs", .scalar (.i 5)),
      ("batch_training_size", .scalar (.i 32))]),
   ("val", .map [("dataset_zip_file_name_validation", .scalar (.s "VAL"))]),
   ("adam_optimizer", .map [("lr", .scalar (.f (1 / 10)))])]

/-- Helper for stating C10: a dotted-path write gets stuck when a nonempty
proper prefix of the path resolves to a scalar. -/
theorem setPath_stuck_on_scalar :
    ∀ (p1 : List String) (m : Entries) (p2 : List String) (v s : Scalar),
    p1 ≠ [] → p2 ≠ [] → Config.getPath (.map m) p1 = some (.scalar s) →
    setPath m (p1 ++ p2) v = none
  | [], _, _, _, _, h1, _, _ => absurd rfl h1
  | [k], m, p2, v, s, _, h2, hs => by
      cases hl : lookupKey m k with
      | none => rw [getPath_cons_of_lookup_none [] hl] at hs; simp at hs
      | some c =>
          rw [getPath_cons_of_lookup [] hl, getPath_nil, Option.some.injEq] at hs
          subst hs
          cases p2 with
          | nil => exact absurd rfl h2
          | cons k2 p2' => exact setPath_cons_of_scalar k2 p2' v hl
  | k :: k1 :: p1', m, p2, v, s, _, h2, hs => by
      cases hl : lookupKey m k with
      | none => rw [getPath_cons_of_lookup_none (k1 :: p1') hl] at hs; simp at hs
      | some c =>
          rw [getPath_cons_of_lookup (k1 :: p1') hl] at hs
          cases c with
          | scalar s' => rw [getPath_cons_scalar] at hs; simp at hs
          | map sub =>
              have hrec := setPath_stuck_on_scalar (k1 :: p1') sub p2 v s
                (by simp) h2 hs
              rw [List.cons_append] at hrec
              rw [List.cons_append, List.cons_append,
                setPath_cons_of_map k1 (p1' ++ p2) v hl, hrec]
              rfl

/-- C10: dotted-path override application is not total.  If an intermediate
segment of an override key's path is present in the base configuration but
bound to a scalar, `load_config` raises a `TypeError` (`none` here) rather
than replacing the scalar: the traversal creates an intermediate mapping only
for an absent segment. -/
theorem C10_scalar_intermediate (key : String) (m : Entries) (v s : Scalar)
    (p1 p2 : List String)
    (hsplit : keyPath key = p1 ++ p2) (h1 : p1 ≠ []) (h2 : p2 ≠ [])
    (hs : Config.getPath (.map m) p1 = some (.scalar s)) :
    applyOverrides m [(key, some v)] = none := by
  have hone : applyOne m key v = none := by
    unfold applyOne
    rw [hsplit]
    exact setPath_stuck_on_scalar p1 m p2 v s h1 h2 hs
  rw [applyOverrides_cons_of_fail [] hone]

/-- C10 witness: overriding `a.b` when `a` is bound to the scalar `5` raises. -/
theorem C10_witness :
    applyOverrides [("a", .scalar (.i 5))] [("a.b", some (.i 7))] = none :=
  C10_scalar_intermediate "a.b" [("a", .scalar (.i 5))] (.i 7) (.i 5)
    ["a"] ["b"] rfl (List.cons_ne_nil _ _) (List.cons_ne_nil _ _) rfl

/-- C1: the claim that `validate_data_paths` always performs and reports all
three existence checks is false.  With a configuration whose data_root
"/data" does not exist, the function returns directly after the first check:
only "/data" is passed to `os.path.exists` and warned about; the training
path "/data/T" is never checked or reported. -/
theorem C1_counterexample :
    validate_data_paths (fun _ => false) ⟨"/data", "T", "V"⟩ =
      ⟨["/data"], ["/data"], false⟩ ∧
    osJoin "/data" "T" = "/data/T" ∧
    "/data/T" ∉ (validate_data_paths (fun _ => false)
      ⟨"/data", "T", "V"⟩).checked :=
  ⟨rfl, rfl, by decide⟩

/-- C1 (amended): `validate_data_paths` checks the paths in the order
data_root, training, validation but short-circuits at the first missing path:
exactly the paths up to and including the first failure are checked, each
checked missing path is individually reported, and the result is true exactly
when all three paths exist. -/
theorem C1_short_circuit (ex : String → Bool) (c : PathConfig) :
    (validate_data_paths ex c).result = allExist ex c ∧
    (validate_data_paths ex c).checked =
      c.data_root ::
        (if ex c.data_root then
          osJoin c.data_root c.train_name ::
            (if ex (osJoin c.data_root c.train_name) then
              [osJoin c.data_root c.val_name]
            else [])
        else []) ∧
    (validate_data_paths ex c).missingReported =
      (validate_data_paths ex c).checked.filter (fun p => !ex p) := by
  unfold validate_data_paths allExist
  cases h1 : ex c.data_root <;>
    cases h2 : ex (osJoin c.data_root c.train_name) <;>
      cases h3 : ex (osJoin c.data_root c.val_name) <;>
        simp [h1, h2, h3, List.filter]

/-- C3: the claim quantifies over every override map and every base
configuration; it fails on a base configuration binding an intermediate
segment to a scalar: overriding `a.b` on `{a: "x"}` raises (`none`) instead
of yielding a configuration holding the override value. -/
theorem C3_counterexample :
    applyOverrides [("a", .scalar (.s "x"))] [("a.b", some (.i 7))] = none := rfl

/-- C3 (amended): for an override map whose keys address pairwise divergent
dotted paths and whose application to the base configuration succeeds, every
key with a non-null value resolves in the result to that value, and every
path divergent from all applied keys resolves exactly as in the base
configuration. -/
theorem C3_override_semantics (O : List (String × Option Scalar))
    (C D : Entries) (hp : List.Pairwise OvDisjoint O)
    (h : applyOverrides C O = some D) :
    (∀ k v, (k, some v) ∈ O →
      Config.getPath (.map D) (keyPath k) = some (.scalar v)) ∧
    (∀ q, (∀ k v, (k, some v) ∈ O → pathsDisjointB (keyPath k) q = true) →
      Config.getPath (.map D) q = Config.getPath (.map C) q) :=
  ⟨applyOverrides_mem O C D h hp, fun q hq => applyOverrides_frame O C D q h hq⟩

/-- C3 witness: overriding `system.data_root` and `train.epochs` on the
concrete base configuration sets both paths and leaves `adam_optimizer.lr`
untouched. -/
theorem C3_witness :
    Config.getPath (.map overriddenCfg) (keyPath "system.data_root") =
      some (.scalar (.s "/x")) ∧
    Config.getPath (.map overriddenCfg) (keyPath "adam_optimizer.lr") =
      Config.getPath (.map baseCfg) (keyPath "adam_optimizer.lr") := by
  have h := C3_override_semantics
    [("system.data_root", some (.s "/x")), ("train.epochs", some (.i 5))]
    baseCfg overriddenCfg
    (by
      refine List.Pairwise.cons (fun b hb => ?_) (List.pairwise_singleton _ _)
      rw [List.mem_singleton.mp hb]
      exact rfl)
    rfl
  refine ⟨h.1 "system.data_root" (.s "/x") (by simp), ?_⟩
  refine h.2 (keyPath "adam_optimizer.lr") ?_
  intro k v hkv
  rcases List.mem_cons.mp hkv with he | he
  · injection he with hk hv
    subst hk
    exact rfl
  · have he' := List.mem_singleton.mp he
    injection he' with hk hv
    subst hk
    exact rfl

/-- C6: the claim quantifies over every override map; it fails when one key's
path extends another's.  Applying `{a.b.c: 1, a.b: 2}` (in dict order) to the
empty configuration succeeds, leaving `a.b = 2`; applying the same map a
second time raises, because `a.b.c` now traverses the scalar at `a.b`. -/
theorem C6_counterexample :
    applyOverrides [] [("a.b.c", some (.i 1)), ("a.b", some (.i 2))] =
      some [("a", .map [("b", .scalar (.i 2))])] ∧
    applyOverrides [("a", .map [("b", .scalar (.i 2))])]
      [("a.b.c", some (.i 1)), ("a.b", some (.i 2))] = none :=
  ⟨rfl, rfl⟩

/-- C6 (amended): override application is idempotent for override maps whose
keys address pairwise divergent dotted paths: if applying the map once
succeeds, applying it again to the result succeeds and changes nothing. -/
theorem C6_idempotent (O : List (String × Option Scalar)) (C D : Entries)
    (hp : List.Pairwise OvDisjoint O) (h : applyOverrides C O = some D) :
    applyOverrides D O = some D :=
  applyOverrides_idem O C D h hp

/-- C6 witness: reapplying the two divergent-key overrides to the already
overridden configuration is the identity. -/
theorem C6_witness :
    applyOverrides overriddenCfg
      [("system.data_root", some (.s "/x")), ("train.epochs", some (.i 5))] =
      some overriddenCfg :=
  C6_idempotent
    [("system.data_root", some (.s "/x")), ("train.epochs", some (.i 5))]
    baseCfg overriddenCfg
    (by
      refine List.Pairwise.cons (fun b hb => ?_) (List.pairwise_singleton _ _)
      rw [List.mem_singleton.mp hb]
      exact rfl)
    rfl

theorem applyDirectPaths_train {m : Entries} {P : String} (hP : P ≠ "") :
    applyDirectPaths m (some P) none =
      (setAttr2 m "system" "data_root" (.scalar (.s (dirname P)))).bind
        (fun m1 => setAttr2 m1 "train" "dataset_zip_file_name_training"
          (.scalar (.s (basename P)))) := by
  unfold applyDirectPaths
  simp [hP]

theorem applyDirectPaths_train_emptyV {m : Entries} {P : String} (hP : P ≠ "") :
    applyDirectPaths m (some P) (some "") = applyDirectPaths m (some P) none := by
  unfold applyDirectPaths
  simp [hP]

theorem applyDirectPaths_both {m : Entries} {P V : String} (hP : P ≠ "")
    (hV : V ≠ "") :
    applyDirectPaths m (some P) (some V) =
      ((setAttr2 m "system" "data_root" (.scalar (.s (dirname P)))).bind
        (fun m1 => setAttr2 m1 "train" "dataset_zip_file_name_training"
          (.scalar (.s (basename P))))).bind
        (fun m1 => setAttr2 m1 "val" "dataset_zip_file_name_validation"
          (.scalar (.s (basename V)))) := by
  unfold applyDirectPaths
  simp [hP, hV, truthyS]

/-- After the two writes of the `--train-data-path` branch, `data_root` holds
the parent directory and the training folder name holds the leaf. -/
theorem directTrain_writes {m D : Entries} {P : String}
    (h : (setAttr2 m "system" "data_root" (.scalar (.s (dirname P)))).bind
        (fun m1 => setAttr2 m1 "train" "dataset_zip_file_name_training"
          (.scalar (.s (basename P)))) = some D) :
    Config.getPath (.map D) ["system", "data_root"] =
      some (.scalar (.s (dirname P))) ∧
    Config.getPath (.map D) ["train", "dataset_zip_file_name_training"] =
      some (.scalar (.s (basename P))) := by
  cases ha : setAttr2 m "system" "data_root" (.scalar (.s (dirname P))) with
  | none => rw [ha] at h; simp at h
  | some ma =>
      rw [ha] at h
      simp only [Option.some_bind] at h
      constructor
      · rw [setAttr2_frame_top h "system" ["data_root"] (by decide)]
        exact setAttr2_get_self ha
      · exact setAttr2_get_self h

/-- C4: the claim quantifies over every path value; it fails for the empty
string, which Python truthiness treats as not supplied.  With
`--train-data-path=""`, the configured data_root "/data" is left unchanged,
while the parent directory of `""` is `""`. -/
theorem C4_counterexample :
    applyDirectPaths baseCfg (some "") none = some baseCfg ∧
    getStr baseCfg ["system", "data_root"] = some "/data" ∧
    dirname "" = "" ∧ ("/data" : String) ≠ "" :=
  ⟨rfl, rfl, rfl, by decide⟩

/-- C4 (amended: for a nonempty path): a nonempty `--train-data-path P` takes
precedence over the data_root plus folder-name composition: in the resolved
configuration, `system.data_root` is the parent directory of `P` and
`train.dataset_zip_file_name_training` is the leaf name of `P`, whatever
`--val-data-path` is. -/
theorem C4_train_path (m : Entries) (P : String) (vp : Option String)
    (D : Entries) (hP : P ≠ "")
    (h : applyDirectPaths m (some P) vp = some D) :
    getStr D ["system", "data_root"] = some (dirname P) ∧
    getStr D ["train", "dataset_zip_file_name_training"] =
      some (basename P) := by
  cases vp with
  | none =>
      rw [applyDirectPaths_train hP] at h
      obtain ⟨h1, h2⟩ := directTrain_writes h
      exact ⟨getStr_eq h1, getStr_eq h2⟩
  | some V =>
      by_cases hV : V = ""
      · subst hV
        rw [applyDirectPaths_train_emptyV hP, applyDirectPaths_train hP] at h
        obtain ⟨h1, h2⟩ := directTrain_writes h
        exact ⟨getStr_eq h1, getStr_eq h2⟩
      · rw [applyDirectPaths_both hP hV] at h
        cases hab : (setAttr2 m "system" "data_root"
            (.scalar (.s (dirname P)))).bind
            (fun m1 => setAttr2 m1 "train" "dataset_zip_file_name_training"
              (.scalar (.s (basename P)))) with
        | none => rw [hab] at h; simp at h
        | some mb =>
            rw [hab] at h
            simp only [Option.some_bind] at h
            obtain ⟨h1, h2⟩ := directTrain_writes hab
            constructor
            · rw [getStr_congr (setAttr2_frame_top h "system" ["data_root"]
                (by decide))]
              exact getStr_eq h1
            · rw [getStr_congr (setAttr2_frame_top h "train"
                ["dataset_zip_file_name_training"] (by decide))]
              exact getStr_eq h2

/-- `baseCfg` after `--train-data-path=/x/y/TRAIN`. -/
def trainPathCfg : Entries :=
  [("system", .map [("data_root", .scalar (.s "/x/y")),
      ("log_dir_system", .scalar (.s "logs"))]),
   ("train", .map [("dataset_zip_file_name_training", .scalar (.s "TRAIN")),
      ("epochs", .scalar (.i 300)),
      ("batch_training_size", .scalar (.i 32))]),
   ("val", .map [("dataset_zip_file_name_validation", .scalar (.s "VAL"))]),
   ("adam_optimizer", .map [("lr", .scalar (.f (1 / 10)))])]

/-- C4 witness: `--train-data-path=/x/y/TRAIN` resolves data_root to "/x/y"
and the training folder name to "TRAIN". -/
theorem C4_witness :
    getStr trainPathCfg ["system", "data_root"] = some "/x/y" ∧
    getStr trainPathCfg ["train", "dataset_zip_file_name_training"] =
      some "TRAIN" :=
  C4_train_path baseCfg "/x/y/TRAIN" none trainPathCfg (by decide) rfl

/-- C5: the claim quantifies over all path values T and V; it fails for
T = "", which Python truthiness treats as not supplied: with
`--train-data-path="" --val-data-path=/z/VAL` the resolved data_root is
derived from the validation path ("/z"), not from T (whose parent is ""). -/
theorem C5_counterexample :
    (applyDirectPaths baseCfg (some "") (some "/z/VAL")).bind
      (fun d => getStr d ["system", "data_root"]) = some "/z" ∧
    dirname "" = "" ∧ ("/z" : String) ≠ "" :=
  ⟨rfl, rfl, by decide⟩

/-- C5 (amended: for nonempty T and V): when both direct paths are given and
nonempty, the resolved data_root is the parent directory of the training path
only — the validation path's parent is discarded — while the validation
folder name is the leaf of V (and the training folder name the leaf of T). -/
theorem C5_data_root_from_train (m : Entries) (T V : String) (D : Entries)
    (hT : T ≠ "") (hV : V ≠ "")
    (h : applyDirectPaths m (some T) (some V) = some D) :
    getStr D ["system", "data_root"] = some (dirname T) ∧
    getStr D ["val", "dataset_zip_file_name_validation"] = some (basename V) ∧
    getStr D ["train", "dataset_zip_file_name_training"] =
      some (basename T) := by
  rw [applyDirectPaths_both hT hV] at h
  cases hab : (setAttr2 m "system" "data_root"
      (.scalar (.s (dirname T)))).bind
      (fun m1 => setAttr2 m1 "train" "dataset_zip_file_name_training"
        (.scalar (.s (basename T)))) with
  | none => rw [hab] at h; simp at h
  | some mb =>
      rw [hab] at h
      simp only [Option.some_bind] at h
      obtain ⟨h1, h2⟩ := directTrain_writes hab
      refine ⟨?_, ?_, ?_⟩
      · rw [getStr_congr (setAttr2_frame_top h "system" ["data_root"]
          (by decide))]
        exact getStr_eq h1
      · exact getStr_eq (setAttr2_get_self h)
      · rw [getStr_congr (setAttr2_frame_top h "train"
          ["dataset_zip_file_name_training"] (by decide))]
        exact getStr_eq h2

/-- `baseCfg` after `--train-data-path=/x/TRAIN --val-data-path=/z/VAL`. -/
def bothPathsCfg : Entries :=
  [("system", .map [("data_root", .scalar (.s "/x")),
      ("log_dir_system", .scalar (.s "logs"))]),
   ("train", .map [("dataset_zip_file_name_training", .scalar (.s "TRAIN")),
      ("epochs", .scalar (.i 300)),
      ("batch_training_size", .scalar (.i 32))]),
   ("val", .map [("dataset_zip_file_name_validation", .scalar (.s "VAL"))]),
   ("adam_optimizer", .map [("lr", .scalar (.f (1 / 10)))])]

/-- C5 witness: with both direct paths given, data_root comes from the
training path ("/x", not "/z") and the validation folder name is "VAL". -/
theorem C5_witness :
    getStr bothPathsCfg ["system", "data_root"] = some "/x" ∧
    getStr bothPathsCfg ["val", "dataset_zip_file_name_validation"] =
      some "VAL" ∧
    getStr bothPathsCfg ["train", "dataset_zip_file_name_training"] =
      some "TRAIN" :=
  C5_data_root_from_train baseCfg "/x/TRAIN" "/z/VAL" bothPathsCfg
    (by decide) (by decide) rfl

/-- An invocation providing 0 / 0.0 for epochs, batch size and learning
rate. -/
def zeroArgs : Args :=
  ⟨none, none, none, none, none, none, some 0, some 0, some 0, false, false⟩

/-- C2: the claim that explicitly provided non-null values such as 0 or 0.0
are merged is false: `main` guards each option with Python truthiness
(`if args.epochs:`), so 0, 0.0 and "" are dropped.  With `--epochs 0
--batch-size 0 --learning-rate 0.0` the override map is empty and the
configured `train.epochs` stays 300. -/
theorem C2_counterexample :
    buildOverrides zeroArgs = [] ∧
    applyOverrides baseCfg (buildOverrides zeroArgs) = some baseCfg ∧
    Config.getPath (.map baseCfg) (keyPath "train.epochs") =
      some (.scalar (.i 300)) :=
  ⟨rfl, rfl, rfl⟩

/-- C2 (amended): a recognized option is merged at its dotted path exactly
when its provided value is truthy (non-null and not 0, 0.0 or the empty
string); an option left unset or provided with a falsy value leaves the
loaded configuration value at its path untouched. -/
theorem C2_truthy_merge (a : Args) (C D : Entries)
    (h : applyOverrides C (buildOverrides a) = some D) :
    ((∀ x, a.data_root = some x → x ≠ "" →
        Config.getPath (.map D) (keyPath "system.data_root") =
          some (.scalar (.s x))) ∧
      (truthyS a.data_root = false →
        Config.getPath (.map D) (keyPath "system.data_root") =
          Config.getPath (.map C) (keyPath "system.data_root"))) ∧
    ((∀ x, a.train_data_name = some x → x ≠ "" →
        Config.getPath (.map D) (keyPath "train.dataset_zip_file_name_training") =
          some (.scalar (.s x))) ∧
      (truthyS a.train_data_name = false →
        Config.getPath (.map D) (keyPath "train.dataset_zip_file_name_training") =
          Config.getPath (.map C) (keyPath "train.dataset_zip_file_name_training"))) ∧
    ((∀ x, a.val_data_name = some x → x ≠ "" →
        Config.getPath (.map D) (keyPath "val.dataset_zip_file_name_validation") =
          some (.scalar (.s x))) ∧
      (truthyS a.val_data_name = false →
        Config.getPath (.map D) (keyPath "val.dataset_zip_file_name_validation") =
          Config.getPath (.map C) (keyPath "val.dataset_zip_file_name_validation"))) ∧
    ((∀ x, a.log_dir = some x → x ≠ "" →
        Config.getPath (.map D) (keyPath "system.log_dir_system") =
          some (.scalar (.s x))) ∧
      (truthyS a.log_dir = false →
        Config.getPath (.map D) (keyPath "system.log_dir_system") =
          Config.getPath (.map C) (keyPath "system.log_dir_system"))) ∧
    ((∀ n, a.epochs = some n → n ≠ 0 →
        Config.getPath (.map D) (keyPath "train.epochs") =
          some (.scalar (.i n))) ∧
      (truthyI a.epochs = false →
        Config.getPath (.map D) (keyPath "train.epochs") =
          Config.getPath (.map C) (keyPath "train.epochs"))) ∧
    ((∀ n, a.batch_size = some n → n ≠ 0 →
        Config.getPath (.map D) (keyPath "train.batch_training_size") =
          some (.scalar (.i n))) ∧
      (truthyI a.batch_size = false →
        Config.getPath (.map D) (keyPath "train.batch_training_size") =
          Config.getPath (.map C) (keyPath "train.batch_training_size"))) ∧
    ((∀ r, a.learning_rate = some r → r ≠ 0 →
        Config.getPath (.map D) (keyPath "adam_optimizer.lr") =
          some (.scalar (.f r))) ∧
      (truthyQ a.learning_rate = false →
        Config.getPath (.map D) (keyPath "adam_optimizer.lr") =
          Config.getPath (.map C) (keyPath "adam_optimizer.lr"))) := by
  have hpw := buildOverrides_pairwise a
  refine ⟨⟨?_, ?_⟩, ⟨?_, ?_⟩, ⟨?_, ?_⟩, ⟨?_, ?_⟩, ⟨?_, ?_⟩, ⟨?_, ?_⟩, ?_, ?_⟩
  · intro x hx hne
    exact applyOverrides_mem _ C D h hpw _ _
      (by simp [buildOverrides, strOver, hx, hne])
  · intro hf
    exact applyOverrides_frame _ C D _ h
      (buildOverrides_frame_cond a _ (Or.inr (strOver_eq_nil hf)) (Or.inl rfl)
        (Or.inl rfl) (Or.inl rfl) (Or.inl rfl) (Or.inl rfl) (Or.inl rfl))
  · intro x hx hne
    exact applyOverrides_mem _ C D h hpw _ _
      (by simp [buildOverrides, strOver, hx, hne])
  · intro hf
    exact applyOverrides_frame _ C D _ h
      (buildOverrides_frame_cond a _ (Or.inl rfl) (Or.inr (strOver_eq_nil hf))
        (Or.inl rfl) (Or.inl rfl) (Or.inl rfl) (Or.inl rfl) (Or.inl rfl))
  · intro x hx hne
    exact applyOverrides_mem _ C D h hpw _ _
      (by simp [buildOverrides, strOver, hx, hne])
  · intro hf
    exact applyOverrides_frame _ C D _ h
      (buildOverrides_frame_cond a _ (Or.inl rfl) (Or.inl rfl)
        (Or.inr (strOver_eq_nil hf)) (Or.inl rfl) (Or.inl rfl) (Or.inl rfl)
        (Or.inl rfl))
  · intro x hx hne
    exact applyOverrides_mem _ C D h hpw _ _
      (by simp [buildOverrides, strOver, hx, hne])
  · intro hf
    exact applyOverrides_frame _ C D _ h
      (buildOverrides_frame_cond a _ (Or.inl rfl) (Or.inl rfl) (Or.inl rfl)
        (Or.inr (strOver_eq_nil hf)) (Or.inl rfl) (Or.inl rfl) (Or.inl rfl))
  · intro n hn hne
    exact applyOverrides_mem _ C D h hpw _ _
      (by simp [buildOverrides, intOver, hn, hne])
  · intro hf
    exact applyOverrides_frame _ C D _ h
      (buildOverrides_frame_cond a _ (Or.inl rfl) (Or.inl rfl) (Or.inl rfl)
        (Or.inl rfl) (Or.inr (intOver_eq_nil hf)) (Or.inl rfl) (Or.inl rfl))
  · intro n hn hne
    exact applyOverrides_mem _ C D h hpw _ _
      (by simp [buildOverrides, intOver, hn, hne])
  · intro hf
    exact applyOverrides_frame _ C D _ h
      (buildOverrides_frame_cond a _ (Or.inl rfl) (Or.inl rfl) (Or.inl rfl)
        (Or.inl rfl) (Or.inl rfl) (Or.inr (intOver_eq_nil hf)) (Or.inl rfl))
  · intro r hr hne
    exact applyOverrides_mem _ C D h hpw _ _
      (by simp [buildOverrides, ratOver, hr, hne])
  · intro hf
    exact applyOverrides_frame _ C D _ h
      (buildOverrides_frame_cond a _ (Or.inl rfl) (Or.inl rfl) (Or.inl rfl)
        (Or.inl rfl) (Or.inl rfl) (Or.inl rfl) (Or.inr (ratOver_eq_nil hf)))

/-- An invocation providing only `--epochs 7`. -/
def epochArgs : Args :=
  ⟨none, none, none, none, none, none, some 7, none, none, false, false⟩

/-- `baseCfg` after `--epochs 7`. -/
def epochCfg : Entries :=
  [("system", .map [("data_root", .scalar (.s "/data")),
      ("log_dir_system", .scalar (.s "logs"))]),
   ("train", .map [("dataset_zip_file_name_training", .scalar (.s "TRAIN")),
      ("epochs", .scalar (.i 7)),
      ("batch_training_size", .scalar (.i 32))]),
   ("val", .map [("dataset_zip_file_name_validation", .scalar (.s "VAL"))]),
   ("adam_optimizer", .map [("lr", .scalar (.f (1 / 10)))])]

/-- C2 witness: `--epochs 7` is merged at `train.epochs`; the unset batch
size leaves `train.batch_training_size` at its configured value. -/
theorem C2_witness :
    Config.getPath (.map epochCfg) (keyPath "train.epochs") =
      some (.scalar (.i 7)) ∧
    Config.getPath (.map epochCfg) (keyPath "train.batch_training_size") =
      Config.getPath (.map baseCfg) (keyPath "train.batch_training_size") := by
  have h := C2_truthy_merge epochArgs baseCfg epochCfg rfl
  exact ⟨h.2.2.2.2.1.1 7 rfl (by decide), h.2.2.2.2.2.1.2 rfl⟩

/-- C7: with `--check-data-only` set, once the configuration resolves and the
summary fields are present, `main` terminates directly after path validation:
exit status 0 when all three data paths exist and 1 otherwise, and in neither
case is the Estimator constructed or training started. -/
theorem C7_check_data_only (a : Args) (ex : String → Bool) (base c : Entries)
    (pc : PathConfig) (hres : resolveConfig a base = some c)
    (hsum : summaryPresent c = true) (hpc : extractPathConfig c = some pc)
    (hflag : a.check_data_only = true) :
    runMain a ex base = .exited (if allExist ex pc then 0 else 1) ∧
    ∀ d, runMain a ex base ≠ Outcome.trained d := by
  have hrun : runMain a ex base = .exited (if allExist ex pc then 0 else 1) := by
    unfold runMain
    rw [hres]
    simp [hsum, hpc, hflag, validate_result]
  refine ⟨hrun, fun d hd => ?_⟩
  rw [hrun] at hd
  exact Outcome.noConfusion hd

/-- C7 witness: with all paths present, the check-only run exits 0. -/
theorem C7_witness :
    runMain ⟨none, none, none, none, none, none, none, none, none, true, false⟩
      (fun _ => true) baseCfg = .exited 0 := by
  have h := (C7_check_data_only
    ⟨none, none, none, none, none, none, none, none, none, true, false⟩
    (fun _ => true) baseCfg baseCfg ⟨"/data", "TRAIN", "VAL"⟩
    rfl rfl rfl rfl).1
  exact h

/-- C8: when path validation fails, `--check-data-only` is unset and the
configuration resolved, `main` without `--force` exits with status 1 before
the Estimator is ever constructed; with `--force` the Estimator is
constructed with the resolved configuration and `train()` is invoked despite
the missing paths. -/
theorem C8_force_gate (a : Args) (ex : String → Bool) (base c : Entries)
    (pc : PathConfig) (hres : resolveConfig a base = some c)
    (hsum : summaryPresent c = true) (hpc : extractPathConfig c = some pc)
    (hflag : a.check_data_only = false) (hfail : allExist ex pc = false) :
    (a.force = false → runMain a ex base = .exited 1 ∧
      ∀ d, runMain a ex base ≠ Outcome.trained d) ∧
    (a.force = true → runMain a ex base = .trained c) := by
  have hval : (validate_data_paths ex pc).result = false := by
    rw [validate_result]
    exact hfail
  constructor
  · intro hforce
    have hrun : runMain a ex base = .exited 1 := by
      unfold runMain
      rw [hres]
      simp [hsum, hpc, hflag, hval, hforce]
    refine ⟨hrun, fun d hd => ?_⟩
    rw [hrun] at hd
    exact Outcome.noConfusion hd
  · intro hforce
    unfold runMain
    rw [hres]
    simp [hsum, hpc, hflag, hval, hforce]

/-- C8 witness: with every path missing and no force, the run exits 1. -/
theorem C8_witness :
    runMain noArgs (fun _ => false) baseCfg = .exited 1 :=
  ((C8_force_gate noArgs (fun _ => false) baseCfg baseCfg
    ⟨"/data", "TRAIN", "VAL"⟩ rfl rfl rfl rfl rfl).1 rfl).1

/-- C9: for a non-empty collected orientation sequence, the analysis
classifies by the number of distinct orientation vectors under exact
equality: exactly 1 flags identical annotations and reports that single
value; more than 1 but fewer than 10 flags very low variation and lists
exactly the distinct values; 10 or more flags good variation with no
listing. -/
theorem C9_variation_classes (l : List Quat) (hne : l ≠ []) :
    (l.toFinset.card = 1 →
      ∃ v, analyzeOrientations l = some ⟨.identical, [v]⟩ ∧ ∀ x ∈ l, x = v) ∧
    (1 < l.toFinset.card → l.toFinset.card < 10 →
      analyzeOrientations l = some ⟨.veryLow, l.dedup⟩ ∧
        ∀ x : Quat, x ∈ l.dedup ↔ x ∈ l) ∧
    (10 ≤ l.toFinset.card → analyzeOrientations l = some ⟨.good, []⟩) := by
  have hcard : l.toFinset.card = l.dedup.length := List.card_toFinset l
  refine ⟨?_, ?_, ?_⟩
  · intro h1
    rw [hcard] at h1
    obtain ⟨v, hv⟩ := List.length_eq_one.mp h1
    refine ⟨v, ?_, ?_⟩
    · simp [analyzeOrientations, hne, hv]
    · intro x hx
      have hxd : x ∈ l.dedup := List.mem_dedup.mpr hx
      rw [hv] at hxd
      simpa using hxd
  · intro h1 h2
    rw [hcard] at h1 h2
    have hne1 : l.dedup.length ≠ 1 := by omega
    refine ⟨?_, fun x => List.mem_dedup⟩
    simp [analyzeOrientations, hne, hne1, h2]
  · intro h10
    rw [hcard] at h10
    have hne1 : l.dedup.length ≠ 1 := by omega
    have hge : ¬ l.dedup.length < 10 := by omega
    simp [analyzeOrientations, hne, hne1, hge]

/-- C9 witness: fifty copies of the quaternion (1,0,0,0) have uniqueness
count 1 and are classified as identical with that single value reported. -/
theorem C9_witness :
    ∃ v, analyzeOrientations
        (List.replicate 50 ((1 : Rat), (0 : Rat), (0 : Rat), (0 : Rat))) =
        some ⟨.identical, [v]⟩ ∧
      ∀ x ∈ List.replicate 50 ((1 : Rat), (0 : Rat), (0 : Rat), (0 : Rat)),
        x = v :=
  (C9_variation_classes
    (List.replicate 50 ((1 : Rat), (0 : Rat), (0 : Rat), (0 : Rat)))
    (by simp)).1 (by decide)

end RosTraining

